import Mathlib

/-
Shallow embedding of the stm demo (stm.hpp and main.cpp): an epoch-based
software transactional memory. Cells are modeled as a list indexed by a
natural number standing for the address of the ValHelper object; epochs are
unbounded naturals (the source uses uint64_t and declares overflow
unreachable); scalar cell values are modeled as integers. Thunks are modeled
as first-order command lists, executed sequentially; the shared mutex is not
modeled (a single thread is embedded, and the lock never blocks it).
-/

set_option autoImplicit false

namespace STM

/-- One transactional cell (impl::ValHelper of a scalar T): the committed
value val_ and the epoch valEpoch_ at which it was last committed. -/
structure Cell where
  val : Int
  valEpoch : Nat
  deriving Repr, DecidableEq

/-- The global context stm::Ctx together with the heap of cells it guards:
the global epoch counter epoch_, and the retry counters. -/
structure GCtx where
  cells : List Cell
  epoch : Nat
  readRetries : Nat
  writeRetries : Nat
  deriving Repr, DecidableEq

/-- The per-thread context impl::ThreadCtx. ctxSet models ctx being
non-null; pendingReads is the std set of epoch-tag addresses (cell ids);
pendingWrites is the std map from cell address to the pending value. -/
structure ThreadCtx where
  ctxSet : Bool
  isWrite : Bool
  epoch : Nat
  pendingReads : List Nat
  pendingWrites : List (Nat × Int)
  deriving Repr, DecidableEq

/-- Read the cell at address c (out of range yields a default cell; all
executions considered stay in range). -/
def cellAt (g : GCtx) (c : Nat) : Cell :=
  g.cells.getD c { val := 0, valEpoch := 0 }

/-- std set insert: duplicates collapse. -/
def setInsert (c : Nat) (s : List Nat) : List Nat :=
  if c ∈ s then s else s ++ [c]

/-- std map find: the value bound to key c, if present. -/
def mapFind? (c : Nat) : List (Nat × Int) → Option Int
  | [] => none
  | p :: rest => if p.1 = c then some p.2 else mapFind? c rest

/-- std map emplace: inserts only if the key is absent; an existing entry is
kept untouched (emplace does not overwrite). -/
def mapEmplace (c : Nat) (v : Int) (m : List (Nat × Int)) : List (Nat × Int) :=
  match mapFind? c m with
  | some _ => m
  | none => m ++ [(c, v)]

namespace ValHelper

/-- impl::ValHelper::getFromRead: load the value, load its epoch; abort the
transaction (throw TxFailed, the error case) when the epoch is newer than
the transaction start epoch, else return the loaded value. -/
def getFromRead (g : GCtx) (t : ThreadCtx) (c : Nat) : Except Unit Int :=
  let val := (cellAt g c).val
  let epoch := (cellAt g c).valEpoch
  if epoch > t.epoch then Except.error () else Except.ok val

/-- impl::ValHelper::getFromWrite: a cell present in pendingWrites returns
its pending value; otherwise the epoch-tag address is inserted into
pendingReads and the read-mode load runs. The returned context carries the
pendingReads insertion even when the read aborts (the insertion happened
before the throw). -/
def getFromWrite (g : GCtx) (t : ThreadCtx) (c : Nat) : Except Unit Int × ThreadCtx :=
  match mapFind? c t.pendingWrites with
  | some v => (Except.ok v, t)
  | none =>
      let t2 := { t with pendingReads := setInsert c t.pendingReads }
      (getFromRead g t2 c, t2)

/-- impl::ValHelper::get: dispatch on the transaction mode. -/
def get (g : GCtx) (t : ThreadCtx) (c : Nat) : Except Unit Int × ThreadCtx :=
  if t.isWrite then getFromWrite g t c else (getFromRead g t c, t)

/-- impl::ValHelper::set: emplace the pending value into pendingWrites. -/
def set (t : ThreadCtx) (c : Nat) (v : Int) : ThreadCtx :=
  { t with pendingWrites := mapEmplace c v t.pendingWrites }

/-- impl::ValHelper::canCommit: the transaction start epoch is at least the
cell epoch. -/
def canCommit (g : GCtx) (t : ThreadCtx) (c : Nat) : Bool :=
  decide (t.epoch ≥ (cellAt g c).valEpoch)

/-- impl::ValHelper::commit: stamp the cell epoch with the thread epoch and
store the value. -/
def commit (g : GCtx) (t : ThreadCtx) (c : Nat) (v : Int) : GCtx :=
  { g with cells := g.cells.set c { val := v, valEpoch := t.epoch } }

end ValHelper

namespace impl

/-- impl::canCommit: every epoch tag in pendingReads is at most the start
epoch, and every cell in pendingWrites passes its canCommit. -/
def canCommit (g : GCtx) (t : ThreadCtx) : Bool :=
  t.pendingReads.all (fun c => !(decide ((cellAt g c).valEpoch > t.epoch))) &&
  t.pendingWrites.all (fun p => ValHelper.canCommit g t p.1)

/-- impl::doCommit: publish every pending write. -/
def doCommit (g : GCtx) (t : ThreadCtx) : GCtx :=
  t.pendingWrites.foldl (fun g2 p => ValHelper.commit g2 t p.1 p.2) g

end impl

/-- How one execution of a thunk ends: normal return, the internal TxFailed
abort signal, a user exception, or a failed assert (which in the source
aborts the process). -/
inductive RunResult where
  | ok
  | txFailed
  | userExn
  | assertFail
  deriving Repr, DecidableEq

/-- One step of user code inside a thunk: read a cell, assign a cell, or
throw a user exception that is not the internal abort signal. -/
inductive Cmd where
  | get (c : Nat)
  | set (c : Nat) (v : Int)
  | throwUser
  deriving Repr, DecidableEq

/-- Run a thunk: execute the commands in order against the (read-only
during execution) global state, threading the per-thread context and
collecting the values returned by the get commands. Stops at the first
abort, user exception, or assert violation (get and set assert that a
transaction is active; set also asserts write mode). -/
def runThunk (g : GCtx) : List Cmd → ThreadCtx → List Int → RunResult × ThreadCtx × List Int
  | [], t, outs => (RunResult.ok, t, outs)
  | Cmd.get c :: rest, t, outs =>
      if t.ctxSet then
        match ValHelper.get g t c with
        | (Except.ok v, t2) => runThunk g rest t2 (outs ++ [v])
        | (Except.error _, t2) => (RunResult.txFailed, t2, outs)
      else (RunResult.assertFail, t, outs)
  | Cmd.set c v :: rest, t, outs =>
      if t.ctxSet && t.isWrite then runThunk g rest (ValHelper.set t c v) outs
      else (RunResult.assertFail, t, outs)
  | Cmd.throwUser :: _, t, outs => (RunResult.userExn, t, outs)

namespace Ctx

/-- Lines 218 to 225 of stm.hpp: with the lock held, validate; on success
bump the thread epoch to the reloaded global epoch plus one, publish the
pending writes, and store the new global epoch. -/
def commitLocked (g : GCtx) (t : ThreadCtx) : Bool × GCtx × ThreadCtx :=
  if impl.canCommit g t then
    (true,
     { impl.doCommit g { t with epoch := g.epoch + 1 } with epoch := g.epoch + 1 },
     { t with epoch := g.epoch + 1 })
  else (false, g, t)

/-- Lines 231 to 240 of stm.hpp: the write retry path. Bump writeRetries,
reload the start epoch under the exclusive lock, re-execute the thunk with
the pending sets left exactly as the failed attempt left them, then bump
the epoch and commit unconditionally. A throw from the re-executed thunk
propagates out with no cleanup. -/
def writeRetry (f : List Cmd) (g : GCtx) (t : ThreadCtx) : RunResult × GCtx × ThreadCtx :=
  match runThunk { g with writeRetries := g.writeRetries + 1 } f
      { t with epoch := g.epoch } [] with
  | (RunResult.ok, t2, _) =>
      (RunResult.ok,
       { impl.doCommit { g with writeRetries := g.writeRetries + 1 }
           { t2 with epoch := t2.epoch + 1 } with epoch := t2.epoch + 1 },
       { t2 with epoch := t2.epoch + 1 })
  | (r, t2, _) => (r, { g with writeRetries := g.writeRetries + 1 }, t2)

/-- Lines 242 to 245 of stm.hpp: clear the pending sets and deactivate the
transaction. -/
def txCleanup (t : ThreadCtx) : ThreadCtx :=
  { t with pendingReads := [], pendingWrites := [], ctxSet := false }

/-- The tail of writeTx when the first thunk run failed (abort signal or
validation failure): run the retry path; when it returns normally the
cleanup lines run, and a throw from the retried thunk propagates with no
cleanup. -/
def writeTxOnFail (f : List Cmd) (g : GCtx) (t1 : ThreadCtx) : RunResult × GCtx × ThreadCtx :=
  match writeRetry f g t1 with
  | (RunResult.ok, g2, t3) => (RunResult.ok, g2, txCleanup t3)
  | (r, g2, t3) => (r, g2, t3)

/-- The tail of writeTx when the first thunk run returned normally: attempt
the locked commit; on validation failure fall through to the retry path. -/
def writeTxOnOk (f : List Cmd) (g : GCtx) (t1 : ThreadCtx) : RunResult × GCtx × ThreadCtx :=
  match commitLocked g t1 with
  | (true, g1, t2) => (RunResult.ok, g1, txCleanup t2)
  | (false, _, _) => writeTxOnFail f g t1

/-- stm::Ctx::writeTx. The entry assert requires no active transaction.
The thunk runs without the lock; on normal return the commit is attempted
under the lock; on validation failure or on the TxFailed signal the retry
path runs; cleanup runs only when no exception escapes (a user exception
or an assert violation propagates with the per-thread state left as is,
since only TxFailed is caught). -/
def writeTx (f : List Cmd) (g : GCtx) (t : ThreadCtx) : RunResult × GCtx × ThreadCtx :=
  if t.ctxSet then (RunResult.assertFail, g, t)
  else
    match runThunk g f { t with ctxSet := true, isWrite := true, epoch := g.epoch } [] with
    | (RunResult.ok, t1, _) => writeTxOnOk f g t1
    | (RunResult.txFailed, t1, _) => writeTxOnFail f g t1
    | (r, t1, _) => (r, g, t1)

/-- Lines 196 to 200 of stm.hpp: the read fallback. Bump readRetries,
reload the start epoch under the shared lock, re-execute the thunk; on
normal return ctx is cleared; a second throw propagates with ctx left
set. -/
def readRetry (f : List Cmd) (g : GCtx) (t1 : ThreadCtx) : RunResult × GCtx × ThreadCtx :=
  match runThunk { g with readRetries := g.readRetries + 1 } f
      { t1 with epoch := g.epoch } [] with
  | (RunResult.ok, t3, _) =>
      (RunResult.ok, { g with readRetries := g.readRetries + 1 }, { t3 with ctxSet := false })
  | (r, t3, _) => (r, { g with readRetries := g.readRetries + 1 }, t3)

/-- stm::Ctx::readTx. The entry assert requires no active transaction. The
thunk runs; if it raises TxFailed, the fallback path runs; ctx is cleared
only when no exception escapes (only TxFailed from the first run is
caught). -/
def readTx (f : List Cmd) (g : GCtx) (t : ThreadCtx) : RunResult × GCtx × ThreadCtx :=
  if t.ctxSet then (RunResult.assertFail, g, t)
  else
    match runThunk g f { t with ctxSet := true, isWrite := false, epoch := g.epoch } [] with
    | (RunResult.ok, t1, _) => (RunResult.ok, g, { t1 with ctxSet := false })
    | (RunResult.txFailed, t1, _) => readRetry f g t1
    | (r, t1, _) => (r, g, t1)

end Ctx

/-- Well-formed global state: no cell carries an epoch newer than the
global epoch. -/
abbrev WF (g : GCtx) : Prop :=
  ∀ i, i < g.cells.length → (cellAt g i).valEpoch ≤ g.epoch

/-- A one-cell initial state: value 0, epoch 0, counters 0. -/
def g0 : GCtx :=
  { cells := [{ val := 0, valEpoch := 0 }], epoch := 0, readRetries := 0, writeRetries := 0 }

/-- An idle thread context: no active transaction, empty sets. -/
def t0 : ThreadCtx :=
  { ctxSet := false, isWrite := false, epoch := 0, pendingReads := [], pendingWrites := [] }

/-- A thread context as writeTx installs it over t0 at epoch 0. -/
def tW : ThreadCtx :=
  { ctxSet := true, isWrite := true, epoch := 0, pendingReads := [], pendingWrites := [] }

/-- A one-cell state whose cell epoch is ahead of the global epoch, as a
concurrent committer would leave it; it drives the retry paths. -/
def gStale : GCtx :=
  { cells := [{ val := 1, valEpoch := 5 }], epoch := 0, readRetries := 0, writeRetries := 0 }

theorem setInsert_mem_mono {a : Nat} {s : List Nat} (c : Nat) (h : a ∈ s) :
    a ∈ setInsert c s := by
  unfold setInsert
  split
  · exact h
  · exact List.mem_append_left _ h

theorem mapFind?_append_left {c : Nat} {m : List (Nat × Int)} {v : Int}
    (h : mapFind? c m = some v) (m2 : List (Nat × Int)) :
    mapFind? c (m ++ m2) = some v := by
  induction m with
  | nil => simp [mapFind?] at h
  | cons p rest ih =>
      rw [List.cons_append]
      unfold mapFind? at h ⊢
      by_cases hp : p.1 = c
      · simpa [hp] using h
      · rw [if_neg hp] at h ⊢
        exact ih h

theorem mapFind?_emplace_mono {c : Nat} {m : List (Nat × Int)} {v : Int}
    (h : mapFind? c m = some v) (c2 : Nat) (w : Int) :
    mapFind? c (mapEmplace c2 w m) = some v := by
  unfold mapEmplace
  cases hf : mapFind? c2 m with
  | some u => exact h
  | none => exact mapFind?_append_left h _

theorem get_ctx_cases (g : GCtx) (t : ThreadCtx) (c : Nat) :
    (ValHelper.get g t c).2 = t ∨
    (ValHelper.get g t c).2 = { t with pendingReads := setInsert c t.pendingReads } := by
  unfold ValHelper.get ValHelper.getFromWrite
  by_cases hw : t.isWrite
  · cases hf : mapFind? c t.pendingWrites <;> simp [hw, hf]
  · simp [hw]

theorem get_ctx_fields (g : GCtx) (t : ThreadCtx) (c : Nat) :
    (ValHelper.get g t c).2.ctxSet = t.ctxSet ∧
    (ValHelper.get g t c).2.isWrite = t.isWrite ∧
    (ValHelper.get g t c).2.epoch = t.epoch ∧
    (ValHelper.get g t c).2.pendingWrites = t.pendingWrites := by
  rcases get_ctx_cases g t c with h | h <;> rw [h] <;> exact ⟨rfl, rfl, rfl, rfl⟩

theorem get_ctx_reads_mono (g : GCtx) (t : ThreadCtx) (c : Nat) {a : Nat}
    (h : a ∈ t.pendingReads) : a ∈ (ValHelper.get g t c).2.pendingReads := by
  rcases get_ctx_cases g t c with h2 | h2 <;> rw [h2]
  · exact h
  · exact setInsert_mem_mono c h

theorem runThunk_fields (g : GCtx) (f : List Cmd) (t : ThreadCtx) (outs : List Int) :
    (runThunk g f t outs).2.1.ctxSet = t.ctxSet ∧
    (runThunk g f t outs).2.1.isWrite = t.isWrite ∧
    (runThunk g f t outs).2.1.epoch = t.epoch := by
  induction f generalizing t outs with
  | nil => exact ⟨rfl, rfl, rfl⟩
  | cons cmd rest ih =>
      cases cmd with
      | get c =>
          simp only [runThunk]
          split
          · rcases hg : ValHelper.get g t c with ⟨e, t2⟩
            have hf := get_ctx_fields g t c
            rw [hg] at hf
            cases e with
            | ok v =>
                simp only [hg]
                have h3 := ih t2 (outs ++ [v])
                exact ⟨h3.1.trans hf.1, h3.2.1.trans hf.2.1, h3.2.2.trans hf.2.2.1⟩
            | error u =>
                simp only [hg]
                exact ⟨hf.1, hf.2.1, hf.2.2.1⟩
          · exact ⟨rfl, rfl, rfl⟩
      | set c v =>
          simp only [runThunk]
          split
          · exact ih (ValHelper.set t c v) outs
          · exact ⟨rfl, rfl, rfl⟩
      | throwUser => exact ⟨rfl, rfl, rfl⟩

theorem runThunk_sets_mono (g : GCtx) (f : List Cmd) (t : ThreadCtx) (outs : List Int) :
    (∀ a, a ∈ t.pendingReads → a ∈ (runThunk g f t outs).2.1.pendingReads) ∧
    (∀ a v, mapFind? a t.pendingWrites = some v →
        mapFind? a (runThunk g f t outs).2.1.pendingWrites = some v) := by
  induction f generalizing t outs with
  | nil => exact ⟨fun a h => h, fun a v h => h⟩
  | cons cmd rest ih =>
      cases cmd with
      | get c =>
          simp only [runThunk]
          split
          · rcases hg : ValHelper.get g t c with ⟨e, t2⟩
            have hf := get_ctx_fields g t c
            rw [hg] at hf
            cases e with
            | ok v =>
                simp only [hg]
                refine ⟨fun a h => (ih t2 (outs ++ [v])).1 a ?_,
                        fun a w h => (ih t2 (outs ++ [v])).2 a w ?_⟩
                · have := get_ctx_reads_mono g t c h
                  rwa [hg] at this
                · rwa [hf.2.2.2]
            | error u =>
                simp only [hg]
                refine ⟨fun a h => ?_, fun a w h => ?_⟩
                · have := get_ctx_reads_mono g t c h
                  rwa [hg] at this
                · rwa [hf.2.2.2]
          · exact ⟨fun a h => h, fun a v h => h⟩
      | set c v =>
          simp only [runThunk]
          split
          · refine ⟨fun a h => (ih (ValHelper.set t c v) outs).1 a h,
                    fun a w h => (ih (ValHelper.set t c v) outs).2 a w ?_⟩
            exact mapFind?_emplace_mono h c v
          · exact ⟨fun a h => h, fun a v h => h⟩
      | throwUser => exact ⟨fun a h => h, fun a v h => h⟩

theorem runThunk_read_id (g : GCtx) (f : List Cmd) (t : ThreadCtx) (outs : List Int)
    (h : t.isWrite = false) : (runThunk g f t outs).2.1 = t := by
  induction f generalizing t outs with
  | nil => rfl
  | cons cmd rest ih =>
      cases cmd with
      | get c =>
          have hg : ValHelper.get g t c = (ValHelper.getFromRead g t c, t) := by
            unfold ValHelper.get
            simp [h]
          simp only [runThunk]
          split
          · rw [hg]
            cases ValHelper.getFromRead g t c with
            | ok v => exact ih t (outs ++ [v]) h
            | error u => rfl
          · rfl
      | set c v =>
          simp only [runThunk, h, Bool.and_false]
          rfl
      | throwUser => rfl

theorem commit_cellAt (g : GCtx) (t : ThreadCtx) (c : Nat) (v : Int) (i : Nat) :
    cellAt (ValHelper.commit g t c v) i = cellAt g i ∨
    ((cellAt (ValHelper.commit g t c v) i).valEpoch = t.epoch ∧ i < g.cells.length) := by
  unfold ValHelper.commit cellAt
  simp only [List.getD_eq_getElem?_getD, List.getElem?_set]
  by_cases hci : c = i
  · subst hci
    by_cases hl : c < g.cells.length
    · right
      simp [hl]
    · left
      simp [hl, List.getElem?_eq_none (Nat.le_of_not_lt hl)]
  · left
    simp [hci]

theorem commit_gfields (g : GCtx) (t : ThreadCtx) (c : Nat) (v : Int) :
    (ValHelper.commit g t c v).epoch = g.epoch ∧
    (ValHelper.commit g t c v).cells.length = g.cells.length ∧
    (ValHelper.commit g t c v).readRetries = g.readRetries ∧
    (ValHelper.commit g t c v).writeRetries = g.writeRetries := by
  refine ⟨rfl, ?_, rfl, rfl⟩
  simp [ValHelper.commit]

theorem commitFold_gfields (ws : List (Nat × Int)) (t : ThreadCtx) (g : GCtx) :
    (ws.foldl (fun g2 p => ValHelper.commit g2 t p.1 p.2) g).epoch = g.epoch ∧
    (ws.foldl (fun g2 p => ValHelper.commit g2 t p.1 p.2) g).cells.length = g.cells.length ∧
    (ws.foldl (fun g2 p => ValHelper.commit g2 t p.1 p.2) g).readRetries = g.readRetries ∧
    (ws.foldl (fun g2 p => ValHelper.commit g2 t p.1 p.2) g).writeRetries = g.writeRetries := by
  induction ws generalizing g with
  | nil => exact ⟨rfl, rfl, rfl, rfl⟩
  | cons p rest ih =>
      rw [List.foldl_cons]
      have h1 := ih (ValHelper.commit g t p.1 p.2)
      have h2 := commit_gfields g t p.1 p.2
      exact ⟨h1.1.trans h2.1, h1.2.1.trans h2.2.1, h1.2.2.1.trans h2.2.2.1,
             h1.2.2.2.trans h2.2.2.2⟩

theorem commitFold_cellAt (ws : List (Nat × Int)) (t : ThreadCtx) (g : GCtx) (i : Nat) :
    cellAt (ws.foldl (fun g2 p => ValHelper.commit g2 t p.1 p.2) g) i = cellAt g i ∨
    ((cellAt (ws.foldl (fun g2 p => ValHelper.commit g2 t p.1 p.2) g) i).valEpoch = t.epoch ∧
      i < g.cells.length) := by
  induction ws generalizing g with
  | nil => exact Or.inl rfl
  | cons p rest ih =>
      rw [List.foldl_cons]
      rcases ih (ValHelper.commit g t p.1 p.2) with h | h
      · rcases commit_cellAt g t p.1 p.2 i with h2 | h2
        · exact Or.inl (h.trans h2)
        · rw [h]
          exact Or.inr h2
      · refine Or.inr ⟨h.1, ?_⟩
        have := (commit_gfields g t p.1 p.2).2.1
        omega

theorem doCommit_gfields (g : GCtx) (t : ThreadCtx) :
    (impl.doCommit g t).epoch = g.epoch ∧
    (impl.doCommit g t).cells.length = g.cells.length ∧
    (impl.doCommit g t).readRetries = g.readRetries ∧
    (impl.doCommit g t).writeRetries = g.writeRetries :=
  commitFold_gfields t.pendingWrites t g

theorem doCommit_cellAt (g : GCtx) (t : ThreadCtx) (i : Nat) :
    cellAt (impl.doCommit g t) i = cellAt g i ∨
    ((cellAt (impl.doCommit g t) i).valEpoch = t.epoch ∧ i < g.cells.length) :=
  commitFold_cellAt t.pendingWrites t g i

theorem cellAt_epochUpdate (g : GCtx) (e : Nat) (i : Nat) :
    cellAt { g with epoch := e } i = cellAt g i := rfl

theorem publish_cellAt (g1 : GCtx) (t2 : ThreadCtx) (i : Nat) :
    cellAt { impl.doCommit g1 t2 with epoch := t2.epoch } i = cellAt g1 i ∨
    ((cellAt { impl.doCommit g1 t2 with epoch := t2.epoch } i).valEpoch = t2.epoch ∧
      i < g1.cells.length) :=
  doCommit_cellAt g1 t2 i

theorem commitLocked_spec (g : GCtx) (t : ThreadCtx) (hw : WF g) :
    ((Ctx.commitLocked g t).1 = true → (Ctx.commitLocked g t).2.1.epoch = g.epoch + 1) ∧
    ((Ctx.commitLocked g t).1 = false → (Ctx.commitLocked g t).2.1 = g) ∧
    (∀ i, i < g.cells.length →
      (cellAt g i).valEpoch ≤ (cellAt (Ctx.commitLocked g t).2.1 i).valEpoch) ∧
    WF (Ctx.commitLocked g t).2.1 ∧
    (Ctx.commitLocked g t).2.1.cells.length = g.cells.length ∧
    (Ctx.commitLocked g t).2.1.readRetries = g.readRetries ∧
    (Ctx.commitLocked g t).2.1.writeRetries = g.writeRetries := by
  unfold Ctx.commitLocked
  by_cases hcc : impl.canCommit g t = true
  · rw [if_pos hcc]
    have hdc := doCommit_gfields g { t with epoch := g.epoch + 1 }
    refine ⟨fun _ => rfl, ?_, ?_, ?_, hdc.2.1, hdc.2.2.1, hdc.2.2.2⟩
    · intro h
      cases h
    · intro i hi
      rcases publish_cellAt g { t with epoch := g.epoch + 1 } i with h | h
      · exact Nat.le_of_eq (congrArg Cell.valEpoch h.symm)
      · rw [h.1]
        exact Nat.le_succ_of_le (hw i hi)
    · intro i hi
      have hi2 : i < g.cells.length := by
        rw [← hdc.2.1]
        exact hi
      rcases publish_cellAt g { t with epoch := g.epoch + 1 } i with h | h
      · rw [h]
        exact Nat.le_succ_of_le (hw i hi2)
      · rw [h.1]
  · rw [if_neg ((Bool.not_eq_true _).symm.mp (by simpa using hcc))]
    refine ⟨?_, fun _ => rfl, fun i _ => Nat.le_refl _, hw, rfl, rfl, rfl⟩
    intro h
    cases h

theorem writeRetry_spec (f : List Cmd) (g : GCtx) (t : ThreadCtx) (hw : WF g) :
    ((Ctx.writeRetry f g t).1 = RunResult.ok →
      (Ctx.writeRetry f g t).2.1.epoch = g.epoch + 1) ∧
    ((Ctx.writeRetry f g t).1 ≠ RunResult.ok → (Ctx.writeRetry f g t).2.1.epoch = g.epoch) ∧
    (∀ i, i < g.cells.length →
      (cellAt g i).valEpoch ≤ (cellAt (Ctx.writeRetry f g t).2.1 i).valEpoch) ∧
    WF (Ctx.writeRetry f g t).2.1 ∧
    (Ctx.writeRetry f g t).2.1.cells.length = g.cells.length ∧
    (Ctx.writeRetry f g t).2.1.readRetries = g.readRetries := by
  unfold Ctx.writeRetry
  rcases hr : runThunk { g with writeRetries := g.writeRetries + 1 } f
      { t with epoch := g.epoch } [] with ⟨r2, t2, o2⟩
  have hep : t2.epoch = g.epoch := by
    have h2 := (runThunk_fields { g with writeRetries := g.writeRetries + 1 } f
      { t with epoch := g.epoch } []).2.2
    rw [hr] at h2
    exact h2
  have hdc := doCommit_gfields { g with writeRetries := g.writeRetries + 1 }
    { t2 with epoch := t2.epoch + 1 }
  cases r2 with
  | ok =>
      refine ⟨fun _ => ?_, fun h => absurd rfl h, ?_, ?_, hdc.2.1, hdc.2.2.1⟩
      · show t2.epoch + 1 = g.epoch + 1
        rw [hep]
      · intro i hi
        rcases publish_cellAt { g with writeRetries := g.writeRetries + 1 }
            { t2 with epoch := t2.epoch + 1 } i with h | h
        · exact Nat.le_of_eq (congrArg Cell.valEpoch h.symm)
        · have h1 : (cellAt { impl.doCommit { g with writeRetries := g.writeRetries + 1 }
              { t2 with epoch := t2.epoch + 1 } with epoch := t2.epoch + 1 } i).valEpoch
              = t2.epoch + 1 := h.1
          rw [h1, hep]
          exact Nat.le_succ_of_le (hw i hi)
      · intro i hi
        have hi2 : i < g.cells.length := by
          rw [← hdc.2.1]
          exact hi
        show (cellAt { impl.doCommit { g with writeRetries := g.writeRetries + 1 }
            { t2 with epoch := t2.epoch + 1 } with epoch := t2.epoch + 1 } i).valEpoch
            ≤ t2.epoch + 1
        rcases publish_cellAt { g with writeRetries := g.writeRetries + 1 }
            { t2 with epoch := t2.epoch + 1 } i with h | h
        · rw [h]
          show (cellAt g i).valEpoch ≤ t2.epoch + 1
          rw [hep]
          exact Nat.le_succ_of_le (hw i hi2)
        · rw [h.1]
  | txFailed =>
      refine ⟨?_, fun _ => rfl, fun i _ => Nat.le_refl _, ?_, rfl, rfl⟩
      · intro h
        cases h
      · exact hw
  | userExn =>
      refine ⟨?_, fun _ => rfl, fun i _ => Nat.le_refl _, ?_, rfl, rfl⟩
      · intro h
        cases h
      · exact hw
  | assertFail =>
      refine ⟨?_, fun _ => rfl, fun i _ => Nat.le_refl _, ?_, rfl, rfl⟩
      · intro h
        cases h
      · exact hw

/-- C5: commit validation is exact. The global canCommit returns true iff
every cell identity in the read set and every cell in the write set carries
a write epoch at most the transaction start epoch, and the per-cell
canCommit returns true iff the cell write epoch is at most the start
epoch. -/
theorem c5_commit_validation_exact (g : GCtx) (t : ThreadCtx) :
    (impl.canCommit g t = true ↔
      ((∀ c ∈ t.pendingReads, (cellAt g c).valEpoch ≤ t.epoch) ∧
       ∀ p ∈ t.pendingWrites, (cellAt g p.1).valEpoch ≤ t.epoch)) ∧
    (∀ c, ValHelper.canCommit g t c = true ↔ (cellAt g c).valEpoch ≤ t.epoch) := by
  constructor
  · unfold impl.canCommit ValHelper.canCommit
    rw [Bool.and_eq_true, List.all_eq_true, List.all_eq_true]
    simp [Nat.not_lt, ge_iff_le]
  · intro c
    unfold ValHelper.canCommit
    simp [ge_iff_le]

/-- Witness for C5 at a concrete input: a context that read and wrote the
single fresh cell at start epoch 0 validates successfully. -/
theorem c5_commit_validation_exact_witness :
    impl.canCommit g0 { tW with pendingReads := [0], pendingWrites := [(0, 4)] } = true :=
  ((c5_commit_validation_exact g0
      { tW with pendingReads := [0], pendingWrites := [(0, 4)] }).1).mpr
    ⟨by decide, by decide⟩

/-- C6: in read mode, get aborts with the distinguished abort signal exactly
when the cell write epoch exceeds the transaction start epoch, and returns
the loaded value exactly when the write epoch is at most the start epoch;
no other outcome is possible. -/
theorem c6_read_mode_get_spec (g : GCtx) (t : ThreadCtx) (c : Nat) :
    (ValHelper.getFromRead g t c = Except.error () ↔
      t.epoch < (cellAt g c).valEpoch) ∧
    (ValHelper.getFromRead g t c = Except.ok (cellAt g c).val ↔
      (cellAt g c).valEpoch ≤ t.epoch) := by
  by_cases h : (cellAt g c).valEpoch > t.epoch
  · simp [ValHelper.getFromRead, h]
  · simp [ValHelper.getFromRead, h]
    omega

/-- C8: in write mode, get on a cell present in the write set returns the
pending value and leaves the thread context (in particular the read set)
unchanged; get on a cell absent from the write set adds the cell identity
to the read set and then performs exactly the read-mode load and staleness
check, its abort propagating unchanged. -/
theorem c8_write_mode_get_spec (g : GCtx) (t : ThreadCtx) (c : Nat) :
    (∀ v, mapFind? c t.pendingWrites = some v →
        ValHelper.getFromWrite g t c = (Except.ok v, t)) ∧
    (mapFind? c t.pendingWrites = none →
        (ValHelper.getFromWrite g t c).2 =
          { t with pendingReads := setInsert c t.pendingReads } ∧
        (ValHelper.getFromWrite g t c).1 = ValHelper.getFromRead g t c) := by
  constructor
  · intro v hv
    unfold ValHelper.getFromWrite
    rw [hv]
  · intro hn
    unfold ValHelper.getFromWrite
    rw [hn]
    exact ⟨rfl, rfl⟩

/-- Witness for C8 at concrete inputs: a cell with a pending write (value 9)
is served from the write set, and a cell without one goes to the read set
and the read-mode load. -/
theorem c8_write_mode_get_spec_witness :
    ValHelper.getFromWrite g0 { tW with pendingWrites := [(0, 9)] } 0 =
      (Except.ok 9, { tW with pendingWrites := [(0, 9)] }) ∧
    (ValHelper.getFromWrite g0 tW 0).2 =
      { tW with pendingReads := setInsert 0 tW.pendingReads } ∧
    (ValHelper.getFromWrite g0 tW 0).1 = ValHelper.getFromRead g0 tW 0 :=
  ⟨(c8_write_mode_get_spec g0 { tW with pendingWrites := [(0, 9)] } 0).1 9 rfl,
   (c8_write_mode_get_spec g0 tW 0).2 rfl⟩

/-- C1 fails on the code: in a write transaction that performs set(5) then
set(7) on the same fresh cell, the value committed is 5, not the last value
7 (map emplace keeps the first pending entry), while a transaction with
just the second set commits 7; the write set after both sets still binds
the cell to 5. -/
theorem c1_second_set_does_not_overwrite :
    (Ctx.writeTx [Cmd.set 0 5, Cmd.set 0 7] g0 t0).2.1.cells
      = [{ val := 5, valEpoch := 1 }] ∧
    mapFind? 0 (runThunk g0 [Cmd.set 0 5, Cmd.set 0 7] tW []).2.1.pendingWrites
      = some 5 ∧
    (Ctx.writeTx [Cmd.set 0 7] g0 t0).2.1.cells = [{ val := 7, valEpoch := 1 }] := by
  decide

/-- C2 fails on the code: in a write transaction executing set(5), get,
set(7), get on one fresh cell, the two gets return 5 and 5 - the get after
set(7) still returns 5, not 7, because the second set did not overwrite
the pending entry. -/
theorem c2_read_your_own_writes_fails :
    (runThunk g0 [Cmd.set 0 5, Cmd.get 0, Cmd.set 0 7, Cmd.get 0] tW []).1
      = RunResult.ok ∧
    (runThunk g0 [Cmd.set 0 5, Cmd.get 0, Cmd.set 0 7, Cmd.get 0] tW []).2.2
      = [5, 5] := by
  decide

/-- C3 fails on the code: when the thunk throws a user exception, both
drivers propagate it with no cleanup: after readTx the context is still
marked active, and after writeTx the context is still active and the write
set still holds the pending entry. -/
theorem c3_user_exception_leaks_state :
    (Ctx.readTx [Cmd.throwUser] g0 t0).1 = RunResult.userExn ∧
    (Ctx.readTx [Cmd.throwUser] g0 t0).2.2.ctxSet = true ∧
    (Ctx.writeTx [Cmd.set 0 3, Cmd.throwUser] g0 t0).1 = RunResult.userExn ∧
    (Ctx.writeTx [Cmd.set 0 3, Cmd.throwUser] g0 t0).2.2.ctxSet = true ∧
    (Ctx.writeTx [Cmd.set 0 3, Cmd.throwUser] g0 t0).2.2.pendingWrites = [(0, 3)] := by
  decide

theorem readRetry_frame (f : List Cmd) (g : GCtx) (t1 : ThreadCtx)
    (h : t1.isWrite = false) :
    (Ctx.readRetry f g t1).2.1 = { g with readRetries := g.readRetries + 1 } ∧
    (Ctx.readRetry f g t1).2.2.pendingReads = t1.pendingReads ∧
    (Ctx.readRetry f g t1).2.2.pendingWrites = t1.pendingWrites := by
  unfold Ctx.readRetry
  rcases hr : runThunk { g with readRetries := g.readRetries + 1 } f
      { t1 with epoch := g.epoch } [] with ⟨r3, t3, o3⟩
  have hid : t3 = { t1 with epoch := g.epoch } := by
    have h2 := runThunk_read_id { g with readRetries := g.readRetries + 1 } f
      { t1 with epoch := g.epoch } [] h
    rw [hr] at h2
    exact h2
  cases r3 <;> subst hid <;> exact ⟨rfl, rfl, rfl⟩

/-- C10: a read transaction modifies no cell, neither value nor write
epoch, and neither the global epoch, the write retry counter, the read set
nor the write set; the only global field it may change is readRetries,
incremented exactly once, and exactly when the first thunk run raises the
abort signal (the fallback path). -/
theorem c10_readTx_frame (f : List Cmd) (g : GCtx) (t : ThreadCtx) (hc : t.ctxSet = false) :
    (Ctx.readTx f g t).2.1.cells = g.cells ∧
    (Ctx.readTx f g t).2.1.epoch = g.epoch ∧
    (Ctx.readTx f g t).2.1.writeRetries = g.writeRetries ∧
    (Ctx.readTx f g t).2.2.pendingReads = t.pendingReads ∧
    (Ctx.readTx f g t).2.2.pendingWrites = t.pendingWrites ∧
    (Ctx.readTx f g t).2.1.readRetries =
      (if (runThunk g f { t with ctxSet := true, isWrite := false, epoch := g.epoch } []).1
          = RunResult.txFailed
       then g.readRetries + 1 else g.readRetries) := by
  unfold Ctx.readTx
  rw [if_neg (by simp [hc])]
  rcases hr : runThunk g f { t with ctxSet := true, isWrite := false, epoch := g.epoch } []
    with ⟨r1, t1, o1⟩
  have hid : t1 = { t with ctxSet := true, isWrite := false, epoch := g.epoch } := by
    have h2 := runThunk_read_id g f
      { t with ctxSet := true, isWrite := false, epoch := g.epoch } [] rfl
    rw [hr] at h2
    exact h2
  cases r1 with
  | ok =>
      subst hid
      exact ⟨rfl, rfl, rfl, rfl, rfl, rfl⟩
  | txFailed =>
      subst hid
      have h3 := readRetry_frame f g
        { t with ctxSet := true, isWrite := false, epoch := g.epoch } rfl
      refine ⟨?_, ?_, ?_, h3.2.1, h3.2.2, ?_⟩
      · show (Ctx.readRetry f g
            { t with ctxSet := true, isWrite := false, epoch := g.epoch }).2.1.cells = g.cells
        rw [h3.1]
      · show (Ctx.readRetry f g
            { t with ctxSet := true, isWrite := false, epoch := g.epoch }).2.1.epoch = g.epoch
        rw [h3.1]
      · show (Ctx.readRetry f g
            { t with ctxSet := true, isWrite := false, epoch := g.epoch }).2.1.writeRetries
            = g.writeRetries
        rw [h3.1]
      · show (Ctx.readRetry f g
            { t with ctxSet := true, isWrite := false, epoch := g.epoch }).2.1.readRetries
            = g.readRetries + 1
        rw [h3.1]
  | userExn =>
      subst hid
      exact ⟨rfl, rfl, rfl, rfl, rfl, rfl⟩
  | assertFail =>
      subst hid
      exact ⟨rfl, rfl, rfl, rfl, rfl, rfl⟩

/-- Witness for C10 at a concrete input: a read transaction that reads the
single cell leaves the global epoch unchanged. -/
theorem c10_readTx_frame_witness :
    (Ctx.readTx [Cmd.get 0] g0 t0).2.1.epoch = g0.epoch :=
  (c10_readTx_frame [Cmd.get 0] g0 t0 rfl).2.1

theorem writeTxOnFail_spec (f : List Cmd) (g : GCtx) (t1 : ThreadCtx) (hw : WF g) :
    ((Ctx.writeTxOnFail f g t1).1 = RunResult.ok →
      (Ctx.writeTxOnFail f g t1).2.1.epoch = g.epoch + 1) ∧
    ((Ctx.writeTxOnFail f g t1).1 ≠ RunResult.ok →
      (Ctx.writeTxOnFail f g t1).2.1.epoch = g.epoch) ∧
    (∀ i, i < g.cells.length →
      (cellAt g i).valEpoch ≤ (cellAt (Ctx.writeTxOnFail f g t1).2.1 i).valEpoch) ∧
    WF (Ctx.writeTxOnFail f g t1).2.1 := by
  unfold Ctx.writeTxOnFail
  rcases hwr : Ctx.writeRetry f g t1 with ⟨r3, g2, t3⟩
  have hr3 := writeRetry_spec f g t1 hw
  rw [hwr] at hr3
  cases r3 with
  | ok =>
      exact ⟨fun _ => hr3.1 rfl, fun h => absurd rfl h, hr3.2.2.1, hr3.2.2.2.1⟩
  | txFailed =>
      exact ⟨fun h => RunResult.noConfusion h,
        fun _ => hr3.2.1 (fun hx => RunResult.noConfusion hx), hr3.2.2.1, hr3.2.2.2.1⟩
  | userExn =>
      exact ⟨fun h => RunResult.noConfusion h,
        fun _ => hr3.2.1 (fun hx => RunResult.noConfusion hx), hr3.2.2.1, hr3.2.2.2.1⟩
  | assertFail =>
      exact ⟨fun h => RunResult.noConfusion h,
        fun _ => hr3.2.1 (fun hx => RunResult.noConfusion hx), hr3.2.2.1, hr3.2.2.2.1⟩

theorem writeTxOnOk_spec (f : List Cmd) (g : GCtx) (t1 : ThreadCtx) (hw : WF g) :
    ((Ctx.writeTxOnOk f g t1).1 = RunResult.ok →
      (Ctx.writeTxOnOk f g t1).2.1.epoch = g.epoch + 1) ∧
    ((Ctx.writeTxOnOk f g t1).1 ≠ RunResult.ok →
      (Ctx.writeTxOnOk f g t1).2.1.epoch = g.epoch) ∧
    (∀ i, i < g.cells.length →
      (cellAt g i).valEpoch ≤ (cellAt (Ctx.writeTxOnOk f g t1).2.1 i).valEpoch) ∧
    WF (Ctx.writeTxOnOk f g t1).2.1 := by
  unfold Ctx.writeTxOnOk
  rcases hcl : Ctx.commitLocked g t1 with ⟨b, g1, t2⟩
  have hs := commitLocked_spec g t1 hw
  rw [hcl] at hs
  cases b with
  | true =>
      exact ⟨fun _ => hs.1 rfl, fun h => absurd rfl h, hs.2.2.1, hs.2.2.2.1⟩
  | false =>
      exact writeTxOnFail_spec f g t1 hw

/-- C7: the global epoch is incremented by exactly 1 per successful write
transaction (both the optimistic commit path and the retry path yield the
ok outcome), left unchanged when the transaction does not commit, and in a
well-formed state every cell write epoch is non-decreasing across the
transaction, well-formedness being preserved. Strict monotonicity of the
global epoch across successful commits follows from the exact plus-one
step. -/
theorem c7_epoch_monotonicity (f : List Cmd) (g : GCtx) (t : ThreadCtx)
    (hw : WF g) (hc : t.ctxSet = false) :
    ((Ctx.writeTx f g t).1 = RunResult.ok →
      (Ctx.writeTx f g t).2.1.epoch = g.epoch + 1) ∧
    ((Ctx.writeTx f g t).1 ≠ RunResult.ok → (Ctx.writeTx f g t).2.1.epoch = g.epoch) ∧
    (∀ i, i < g.cells.length →
      (cellAt g i).valEpoch ≤ (cellAt (Ctx.writeTx f g t).2.1 i).valEpoch) ∧
    WF (Ctx.writeTx f g t).2.1 := by
  unfold Ctx.writeTx
  rw [if_neg (by simp [hc])]
  rcases hr : runThunk g f { t with ctxSet := true, isWrite := true, epoch := g.epoch } []
    with ⟨r1, t1, o1⟩
  cases r1 with
  | ok =>
      have h := writeTxOnOk_spec f g t1 hw
      exact ⟨h.1, h.2.1, h.2.2.1, h.2.2.2⟩
  | txFailed =>
      have h := writeTxOnFail_spec f g t1 hw
      exact ⟨h.1, h.2.1, h.2.2.1, h.2.2.2⟩
  | userExn =>
      exact ⟨fun h => RunResult.noConfusion h, fun _ => rfl, fun i _ => Nat.le_refl _, hw⟩
  | assertFail =>
      exact ⟨fun h => RunResult.noConfusion h, fun _ => rfl, fun i _ => Nat.le_refl _, hw⟩

/-- Witness for C7 at a concrete input: committing set(5) on the single
fresh cell advances the global epoch from 0 to 1. -/
theorem c7_epoch_monotonicity_witness :
    (Ctx.writeTx [Cmd.set 0 5] g0 t0).2.1.epoch = g0.epoch + 1 :=
  (c7_epoch_monotonicity [Cmd.set 0 5] g0 t0 (by decide) rfl).1 (by decide)

/-- C9: when the first attempt of a write transaction fails (either the
thunk raised the abort signal, or validation at commit failed), the retry
path re-executes the thunk starting from the thread context the failed
attempt left behind: the outcome of the whole transaction is the outcome
of that re-execution, every read-set member and write-set binding
accumulated by the failed attempt is still present after the re-execution,
and the two sets are cleared only after the retry commit completes (they
are left intact when the retried thunk throws). -/
theorem c9_retry_reexecutes_with_sets (f : List Cmd) (g : GCtx) (t : ThreadCtx)
    (r1 : RunResult) (t1 : ThreadCtx) (outs1 : List Int)
    (hc : t.ctxSet = false)
    (hrun : runThunk g f { t with ctxSet := true, isWrite := true, epoch := g.epoch } []
      = (r1, t1, outs1))
    (hfail : r1 = RunResult.txFailed ∨
      (r1 = RunResult.ok ∧ impl.canCommit g t1 = false)) :
    (Ctx.writeTx f g t).1 =
      (runThunk { g with writeRetries := g.writeRetries + 1 } f
        { t1 with epoch := g.epoch } []).1 ∧
    (∀ a, a ∈ t1.pendingReads →
      a ∈ (runThunk { g with writeRetries := g.writeRetries + 1 } f
        { t1 with epoch := g.epoch } []).2.1.pendingReads) ∧
    (∀ a v, mapFind? a t1.pendingWrites = some v →
      mapFind? a (runThunk { g with writeRetries := g.writeRetries + 1 } f
        { t1 with epoch := g.epoch } []).2.1.pendingWrites = some v) ∧
    ((runThunk { g with writeRetries := g.writeRetries + 1 } f
        { t1 with epoch := g.epoch } []).1 = RunResult.ok →
      (Ctx.writeTx f g t).2.2.pendingReads = [] ∧
      (Ctx.writeTx f g t).2.2.pendingWrites = []) ∧
    ((runThunk { g with writeRetries := g.writeRetries + 1 } f
        { t1 with epoch := g.epoch } []).1 ≠ RunResult.ok →
      (Ctx.writeTx f g t).2.2 =
        (runThunk { g with writeRetries := g.writeRetries + 1 } f
          { t1 with epoch := g.epoch } []).2.1) := by
  have hwt : Ctx.writeTx f g t = Ctx.writeTxOnFail f g t1 := by
    unfold Ctx.writeTx
    rw [if_neg (by simp [hc]), hrun]
    rcases hfail with hf | ⟨hf, hcc⟩
    · subst hf
      rfl
    · subst hf
      show Ctx.writeTxOnOk f g t1 = Ctx.writeTxOnFail f g t1
      unfold Ctx.writeTxOnOk Ctx.commitLocked
      rw [hcc]
      rfl
  rw [hwt]
  unfold Ctx.writeTxOnFail Ctx.writeRetry
  have hm := runThunk_sets_mono { g with writeRetries := g.writeRetries + 1 } f
    { t1 with epoch := g.epoch } []
  rcases hr2 : runThunk { g with writeRetries := g.writeRetries + 1 } f
    { t1 with epoch := g.epoch } [] with ⟨r2, t2, o2⟩
  rw [hr2] at hm
  cases r2 with
  | ok =>
      exact ⟨rfl, hm.1, hm.2, fun _ => ⟨rfl, rfl⟩, fun h => absurd rfl h⟩
  | txFailed =>
      exact ⟨rfl, hm.1, hm.2, fun h => RunResult.noConfusion h, fun _ => rfl⟩
  | userExn =>
      exact ⟨rfl, hm.1, hm.2, fun h => RunResult.noConfusion h, fun _ => rfl⟩
  | assertFail =>
      exact ⟨rfl, hm.1, hm.2, fun h => RunResult.noConfusion h, fun _ => rfl⟩

/-- Witness for C9 at a concrete input: against a cell whose write epoch 5
is ahead of the global epoch 0, a transaction that only sets the cell
passes its thunk but fails validation, and the whole transaction ends with
the outcome of the re-execution. -/
theorem c9_retry_reexecutes_with_sets_witness :
    (Ctx.writeTx [Cmd.set 0 7] gStale t0).1 =
      (runThunk { gStale with writeRetries := gStale.writeRetries + 1 } [Cmd.set 0 7]
        { ctxSet := true, isWrite := true, epoch := gStale.epoch, pendingReads := [],
          pendingWrites := [(0, 7)] } []).1 :=
  (c9_retry_reexecutes_with_sets [Cmd.set 0 7] gStale t0 RunResult.ok
    { ctxSet := true, isWrite := true, epoch := 0, pendingReads := [],
      pendingWrites := [(0, 7)] }
    [] rfl (by decide) (Or.inr ⟨rfl, by decide⟩)).1

end STM
